import Mathlib

/-!
Verification of the AST-to-hierarchy conversion core of the `compile-time`
repository (file `astToHierarchy.ts` and the layout policy in
`BlobVisualization.tsx` / `RingsVisualization.tsx`).

The external parser's nodes (`ts.Node`) are modelled as trees carrying a
numeric `kind` discriminant (`ts.SyntaxKind` is a numeric enum), an optional
lexical `text` payload (modelled as always-present, as it is read only on the
identifier/literal branches), and the ordered child list that
`ts.forEachChild` iterates.
-/

namespace CompileTime

/-- `ts.SyntaxKind` is a numeric enum; we model the discriminant as `Nat`. -/
abbrev SyntaxKind := Nat

/-- `ts.SyntaxKind.EndOfFileToken` (the end-of-input sentinel). -/
def SyntaxKind.EndOfFileToken : SyntaxKind := 1

/-- `ts.SyntaxKind.NumericLiteral`. -/
def SyntaxKind.NumericLiteral : SyntaxKind := 9

/-- `ts.SyntaxKind.StringLiteral`. -/
def SyntaxKind.StringLiteral : SyntaxKind := 11

/-- `ts.SyntaxKind.Identifier`. -/
def SyntaxKind.Identifier : SyntaxKind := 80

/-- `ts.SyntaxKind.BinaryExpression`. -/
def SyntaxKind.BinaryExpression : SyntaxKind := 226

/-- `ts.SyntaxKind.SourceFile`. -/
def SyntaxKind.SourceFile : SyntaxKind := 307

/-- `ts.SyntaxKind.FirstToken` (lower bound of the token kind range used by
`ts.isToken`). -/
def SyntaxKind.FirstToken : SyntaxKind := 0

/-- `ts.SyntaxKind.LastToken` (upper bound of the token kind range used by
`ts.isToken`). -/
def SyntaxKind.LastToken : SyntaxKind := 165

/-- The reverse enum mapping `ts.SyntaxKind[k]` (canonical kind name), given
concretely for the kinds this development evaluates and generically
elsewhere; the theorems below depend only on it being a function of `k`. -/
def SyntaxKind.name (k : SyntaxKind) : String :=
  if k = SyntaxKind.EndOfFileToken then "EndOfFileToken"
  else if k = SyntaxKind.NumericLiteral then "NumericLiteral"
  else if k = SyntaxKind.StringLiteral then "StringLiteral"
  else if k = SyntaxKind.Identifier then "Identifier"
  else if k = SyntaxKind.BinaryExpression then "BinaryExpression"
  else if k = SyntaxKind.SourceFile then "SourceFile"
  else "SyntaxKind" ++ toString k

/-- A parser node (`ts.Node`): kind discriminant, lexical text payload, and
the ordered children that `ts.forEachChild` enumerates. -/
inductive TSNode where
  | mk (kind : SyntaxKind) (text : String) (children : List TSNode)

/-- The `kind` discriminant of a node. -/
def TSNode.kind : TSNode → SyntaxKind
  | .mk k _ _ => k

/-- The lexical `text` payload of a node. -/
def TSNode.text : TSNode → String
  | .mk _ t _ => t

/-- The ordered children enumerated by `ts.forEachChild`. -/
def TSNode.children : TSNode → List TSNode
  | .mk _ _ cs => cs

/-- `ts.isIdentifier(node)`: the kind equals `Identifier`. -/
def isIdentifier (n : TSNode) : Bool := n.kind = SyntaxKind.Identifier

/-- `ts.isNumericLiteral(node)`: the kind equals `NumericLiteral`. -/
def isNumericLiteral (n : TSNode) : Bool := n.kind = SyntaxKind.NumericLiteral

/-- `ts.isStringLiteral(node)`: the kind equals `StringLiteral`. -/
def isStringLiteral (n : TSNode) : Bool := n.kind = SyntaxKind.StringLiteral

/-- `ts.isToken(node)`: the kind lies in the token range
`FirstToken ≤ kind ≤ LastToken`. -/
def isToken (n : TSNode) : Bool :=
  SyntaxKind.FirstToken ≤ n.kind ∧ n.kind ≤ SyntaxKind.LastToken

/-- The `HierarchyNode` interface of `astToHierarchy.ts`: label, optional
child list (its absence is significant), optional uniform weight, and the
original discriminant passed through. -/
inductive HierarchyNode where
  | mk (name : String) (children : Option (List HierarchyNode))
       (value : Option Nat) (syntaxKind : SyntaxKind)

/-- The `name` label of a hierarchy node. -/
def HierarchyNode.name : HierarchyNode → String
  | .mk s _ _ _ => s

/-- The optional `children` field of a hierarchy node. -/
def HierarchyNode.children : HierarchyNode → Option (List HierarchyNode)
  | .mk _ cs _ _ => cs

/-- The optional `value` field of a hierarchy node. -/
def HierarchyNode.value : HierarchyNode → Option Nat
  | .mk _ _ v _ => v

/-- The `syntaxKind` pass-through field of a hierarchy node. -/
def HierarchyNode.syntaxKind : HierarchyNode → SyntaxKind
  | .mk _ _ _ k => k

/-- The label computation of `astToHierarchy` (its `nodeName` variable): the
`ts.isIdentifier / isNumericLiteral / isStringLiteral / isToken` chain,
defaulting to the canonical kind name. -/
def nodeNameOf (n : TSNode) : String :=
  let kindName := SyntaxKind.name n.kind
  if isIdentifier n then "Identifier: " ++ n.text
  else if isNumericLiteral n then "NumericLiteral: " ++ n.text
  else if isStringLiteral n then "StringLiteral: \"" ++ n.text ++ "\""
  else if isToken n ∧ n.kind ≠ SyntaxKind.EndOfFileToken then kindName
  else kindName

mutual

/-- `astToHierarchy(node)` from `astToHierarchy.ts`: compute the label,
convert the `forEachChild` children while skipping `EndOfFileToken`
children, set `value` to 1, and attach `children` only when non-empty. -/
def astToHierarchy (n : TSNode) : HierarchyNode :=
  match n with
  | .mk kind text cs =>
    let nodeName := nodeNameOf (.mk kind text cs)
    let children := astChildren cs
    .mk nodeName (if children.length > 0 then some children else none)
        (some 1) kind

/-- The `ts.forEachChild` loop body of `astToHierarchy`: skip
`EndOfFileToken` children, push the converted hierarchy of every other
child, in order. -/
def astChildren : List TSNode → List HierarchyNode
  | [] => []
  | c :: cs =>
    if c.kind = SyntaxKind.EndOfFileToken then astChildren cs
    else astToHierarchy c :: astChildren cs

end

/-- A parsed source file (`ts.SourceFile`): the ordered `statements` list
read by `astRootToHierarchy`. -/
structure TSSourceFile where
  statements : List TSNode

/-- `astRootToHierarchy(sourceFile)` from `astToHierarchy.ts`: a single
top-level statement becomes the root itself; otherwise a synthetic
`"Program"` root with every statement converted, in order. -/
def astRootToHierarchy (sourceFile : TSSourceFile) : HierarchyNode :=
  if h : sourceFile.statements.length = 1 then
    astToHierarchy (sourceFile.statements.get ⟨0, by omega⟩)
  else
    .mk "Program" (some (sourceFile.statements.map astToHierarchy))
        (some 1) SyntaxKind.SourceFile

/-! ### Shape, size and sentinel-freeness helpers -/

/-- The bare branching shape of a tree, used to state that `astToHierarchy`
preserves the tree shape. -/
inductive Shape where
  | node (children : List Shape)

mutual

/-- The branching shape of a parser node under `forEachChild` iteration. -/
def TSNode.shape : TSNode → Shape
  | .mk _ _ cs => .node (shapeList cs)

/-- Shapes of a list of parser nodes, in order. -/
def shapeList : List TSNode → List Shape
  | [] => []
  | c :: cs => TSNode.shape c :: shapeList cs

end

mutual

/-- The branching shape of a hierarchy node (an absent `children` field reads
as no children). -/
def HierarchyNode.shape : HierarchyNode → Shape
  | .mk _ none _ _ => .node []
  | .mk _ (some cs) _ _ => .node (hShapeList cs)

/-- Shapes of a list of hierarchy nodes, in order. -/
def hShapeList : List HierarchyNode → List Shape
  | [] => []
  | h :: hs => HierarchyNode.shape h :: hShapeList hs

end

mutual

/-- Number of nodes of a parser subtree. -/
def TSNode.nodeCount : TSNode → Nat
  | .mk _ _ cs => 1 + nodeCountList cs

/-- Total node count of a list of parser subtrees. -/
def nodeCountList : List TSNode → Nat
  | [] => 0
  | c :: cs => TSNode.nodeCount c + nodeCountList cs

end

mutual

/-- Number of nodes of a hierarchy subtree. -/
def HierarchyNode.nodeCount : HierarchyNode → Nat
  | .mk _ none _ _ => 1
  | .mk _ (some cs) _ _ => 1 + hNodeCountList cs

/-- Total node count of a list of hierarchy subtrees. -/
def hNodeCountList : List HierarchyNode → Nat
  | [] => 0
  | h :: hs => HierarchyNode.nodeCount h + hNodeCountList hs

end

mutual

/-- No node strictly below the root has the `EndOfFileToken` kind. -/
def TSNode.eofFreeBelow : TSNode → Bool
  | .mk _ _ cs => eofFreeBelowList cs

/-- Every node of the list, and every node below one, has a kind other than
`EndOfFileToken`. -/
def eofFreeBelowList : List TSNode → Bool
  | [] => true
  | c :: cs =>
    (!(c.kind == SyntaxKind.EndOfFileToken)) && c.eofFreeBelow
      && eofFreeBelowList cs

end

/-! ### The d3 weighting step (`root.sum(d => d.value || 1)`) -/

/-- The weight function `d => d.value || 1` passed to `root.sum` in
`BlobVisualization.tsx` / `RingsVisualization.tsx` (in JavaScript a missing
or zero `value` is falsy and yields 1). -/
def jsWeight : Option Nat → Nat
  | none => 1
  | some v => if v = 0 then 1 else v

mutual

/-- The subtree weight computed by d3's `root.sum`: the node's own weight
plus the weights of all descendants. -/
def sumWeight : HierarchyNode → Nat
  | .mk _ none v _ => jsWeight v
  | .mk _ (some cs) v _ => jsWeight v + sumWeightList cs

/-- Total `root.sum` weight of a list of hierarchy subtrees. -/
def sumWeightList : List HierarchyNode → Nat
  | [] => 0
  | h :: hs => sumWeight h + sumWeightList hs

end

mutual

/-- Every node of the hierarchy subtree carries `value = 1`. -/
def allValuesOne : HierarchyNode → Bool
  | .mk _ none v _ => v == some 1
  | .mk _ (some cs) v _ => (v == some 1) && allValuesOneList cs

/-- Every node of every hierarchy subtree in the list carries `value = 1`. -/
def allValuesOneList : List HierarchyNode → Bool
  | [] => true
  | h :: hs => allValuesOne h && allValuesOneList hs

end

/-! ### Basic equations for the converter -/

lemma astToHierarchy_mk (k : SyntaxKind) (t : String) (cs : List TSNode) :
    astToHierarchy (.mk k t cs) =
      .mk (nodeNameOf (.mk k t cs))
        (if (astChildren cs).length > 0 then some (astChildren cs) else none)
        (some 1) k := rfl

lemma astChildren_eq_filter_map (cs : List TSNode) :
    astChildren cs =
      (cs.filter (fun c => c.kind ≠ SyntaxKind.EndOfFileToken)).map
        astToHierarchy := by
  induction cs with
  | nil => rfl
  | cons c cs ih =>
    by_cases h : c.kind = SyntaxKind.EndOfFileToken <;>
      simp [astChildren, h, ih]

lemma children_getD_astToHierarchy (k : SyntaxKind) (t : String)
    (cs : List TSNode) :
    ((astToHierarchy (.mk k t cs)).children).getD [] = astChildren cs := by
  rw [astToHierarchy_mk]
  show (if (astChildren cs).length > 0 then some (astChildren cs)
        else none).getD [] = astChildren cs
  split
  · rfl
  · next h =>
    have : astChildren cs = [] := List.length_eq_zero.mp (by omega)
    simp [this]

lemma shape_astToHierarchy (k : SyntaxKind) (t : String) (cs : List TSNode) :
    (astToHierarchy (.mk k t cs)).shape =
      Shape.node (hShapeList (astChildren cs)) := by
  rw [astToHierarchy_mk]
  show HierarchyNode.shape
      (.mk _ (if (astChildren cs).length > 0 then some (astChildren cs)
              else none) _ _) = _
  split
  · rfl
  · next h =>
    have : astChildren cs = [] := List.length_eq_zero.mp (by omega)
    rw [this]
    rfl

lemma nodeCount_astToHierarchy (k : SyntaxKind) (t : String)
    (cs : List TSNode) :
    (astToHierarchy (.mk k t cs)).nodeCount =
      1 + hNodeCountList (astChildren cs) := by
  rw [astToHierarchy_mk]
  show HierarchyNode.nodeCount
      (.mk _ (if (astChildren cs).length > 0 then some (astChildren cs)
              else none) _ _) = _
  split
  · rfl
  · next h =>
    have : astChildren cs = [] := List.length_eq_zero.mp (by omega)
    rw [this]
    rfl

/-! ### Shape preservation (claim C1) -/

mutual

theorem shape_count_aux : ∀ (n : TSNode), n.eofFreeBelow = true →
    (astToHierarchy n).shape = n.shape ∧
      (astToHierarchy n).nodeCount = n.nodeCount
  | .mk k t cs, h => by
    have hcs : eofFreeBelowList cs = true := h
    obtain ⟨h1, h2⟩ := shape_count_list_aux cs hcs
    refine ⟨?_, ?_⟩
    · rw [shape_astToHierarchy, h1]
      rfl
    · rw [nodeCount_astToHierarchy, h2]
      rfl

theorem shape_count_list_aux : ∀ (cs : List TSNode),
    eofFreeBelowList cs = true →
    hShapeList (astChildren cs) = shapeList cs ∧
      hNodeCountList (astChildren cs) = nodeCountList cs
  | [], _ => ⟨rfl, rfl⟩
  | c :: cs', h => by
    have h' : ((!(c.kind == SyntaxKind.EndOfFileToken)) && c.eofFreeBelow
        && eofFreeBelowList cs') = true := h
    rw [Bool.and_eq_true, Bool.and_eq_true] at h'
    obtain ⟨⟨hk, hc⟩, hcs'⟩ := h'
    have hkne : ¬(c.kind = SyntaxKind.EndOfFileToken) := by
      simpa using hk
    obtain ⟨ih1, ih2⟩ := shape_count_aux c hc
    obtain ⟨il1, il2⟩ := shape_count_list_aux cs' hcs'
    constructor
    · show hShapeList (if c.kind = SyntaxKind.EndOfFileToken
          then astChildren cs' else astToHierarchy c :: astChildren cs')
        = shapeList (c :: cs')
      rw [if_neg hkne]
      show (astToHierarchy c).shape :: hShapeList (astChildren cs')
        = c.shape :: shapeList cs'
      rw [ih1, il1]
    · show hNodeCountList (if c.kind = SyntaxKind.EndOfFileToken
          then astChildren cs' else astToHierarchy c :: astChildren cs')
        = nodeCountList (c :: cs')
      rw [if_neg hkne]
      show (astToHierarchy c).nodeCount + hNodeCountList (astChildren cs')
        = c.nodeCount + nodeCountList cs'
      rw [ih2, il2]

end

/-- C1: for every syntax tree in which the end-of-input sentinel kind does
not occur strictly below the root, `astToHierarchy` returns a hierarchy tree
of exactly the same shape — same node count, same branching at every node,
children in the same left-to-right order as the node's `forEachChild`
children. -/
theorem astToHierarchy_isomorphic (n : TSNode) (h : n.eofFreeBelow = true) :
    (astToHierarchy n).shape = n.shape ∧
      (astToHierarchy n).nodeCount = n.nodeCount :=
  shape_count_aux n h

/-- A sample binary-expression tree `1 + 2`, used to instantiate
hypotheses of the theorems at a concrete input. -/
def sampleExpr : TSNode :=
  .mk SyntaxKind.BinaryExpression ""
    [.mk SyntaxKind.NumericLiteral "1" [], .mk 40 "+" [],
     .mk SyntaxKind.NumericLiteral "2" []]

/-- Witness for C1 at the concrete tree `1 + 2`. -/
theorem astToHierarchy_isomorphic_witness :
    sampleExpr.eofFreeBelow = true ∧
      ((astToHierarchy sampleExpr).shape = sampleExpr.shape ∧
        (astToHierarchy sampleExpr).nodeCount = sampleExpr.nodeCount) :=
  ⟨by decide, astToHierarchy_isomorphic sampleExpr (by decide)⟩

/-! ### Root conversion (claims C2 and C9) -/

/-- C2: a source file with exactly one top-level statement is converted to
that statement's own hierarchy (no wrapper); otherwise the result is the
synthetic root named `"Program"` with value 1 whose children are the
converted statements in original order. -/
theorem astRootToHierarchy_spec (sf : TSSourceFile) :
    (∀ s, sf.statements = [s] → astRootToHierarchy sf = astToHierarchy s) ∧
      (sf.statements.length ≠ 1 →
        astRootToHierarchy sf =
          .mk "Program" (some (sf.statements.map astToHierarchy)) (some 1)
            SyntaxKind.SourceFile) := by
  constructor
  · intro s hs
    simp [astRootToHierarchy, hs]
  · intro h
    simp [astRootToHierarchy, h]

/-- A two-statement program, used to instantiate the synthetic-root branch
at a concrete input. -/
def sampleProgramTwo : TSSourceFile :=
  ⟨[.mk SyntaxKind.Identifier "a" [], .mk SyntaxKind.Identifier "b" []]⟩

/-- Witness for C2 at a one-statement and a two-statement program. -/
theorem astRootToHierarchy_spec_witness :
    astRootToHierarchy ⟨[sampleExpr]⟩ = astToHierarchy sampleExpr ∧
      astRootToHierarchy sampleProgramTwo =
        .mk "Program" (some (sampleProgramTwo.statements.map astToHierarchy))
          (some 1) SyntaxKind.SourceFile :=
  ⟨(astRootToHierarchy_spec ⟨[sampleExpr]⟩).1 sampleExpr rfl,
   (astRootToHierarchy_spec sampleProgramTwo).2 (by decide)⟩

/-- C9: a program with zero top-level statements takes the synthetic-root
path and yields a `"Program"` node whose `children` field is present and
equal to the empty array, unlike the leaf-omission rule of
`astToHierarchy`. -/
theorem astRootToHierarchy_empty_program :
    astRootToHierarchy ⟨[]⟩ =
      .mk "Program" (some []) (some 1) SyntaxKind.SourceFile := by
  simp [astRootToHierarchy]

/-! ### Sentinel filtering (claim C3) -/

lemma filter_length_add_countP (l : List TSNode) :
    (l.filter (fun c => c.kind ≠ SyntaxKind.EndOfFileToken)).length
        + l.countP (fun c => c.kind = SyntaxKind.EndOfFileToken)
      = l.length := by
  induction l with
  | nil => rfl
  | cons c l ih =>
    by_cases h : c.kind = SyntaxKind.EndOfFileToken
    · rw [List.filter_cons_of_neg (by simp [h]), List.countP_cons,
        if_pos (by simp [h]), List.length_cons]
      omega
    · rw [List.filter_cons_of_pos (by simp [h]), List.countP_cons,
        if_neg (by simp [h]), List.length_cons, List.length_cons]
      omega

/-- C3: every enumerated child whose kind is the end-of-input sentinel is
skipped entirely — it contributes no hierarchy node — so the child list is
the converted non-sentinel children, and a node with exactly one sentinel
child among its children yields one hierarchy child fewer than it has
children; the rule applies to `astToHierarchy` at every node. -/
theorem astToHierarchy_skips_sentinel (k : SyntaxKind) (t : String)
    (cs : List TSNode) :
    ((astToHierarchy (.mk k t cs)).children).getD []
        = (cs.filter (fun c => c.kind ≠ SyntaxKind.EndOfFileToken)).map
            astToHierarchy ∧
      (cs.countP (fun c => c.kind = SyntaxKind.EndOfFileToken) = 1 →
        (((astToHierarchy (.mk k t cs)).children).getD []).length
          = cs.length - 1) := by
  have hbase := children_getD_astToHierarchy k t cs
  constructor
  · rw [hbase, astChildren_eq_filter_map]
  · intro hcount
    rw [hbase, astChildren_eq_filter_map, List.length_map]
    have := filter_length_add_countP cs
    omega

/-- A child list holding exactly one end-of-input sentinel among two other
nodes. -/
def sampleWithEof : List TSNode :=
  [.mk SyntaxKind.NumericLiteral "1" [],
   .mk SyntaxKind.EndOfFileToken "" [],
   .mk SyntaxKind.NumericLiteral "2" []]

/-- Witness for C3: one sentinel child among three children leaves two
hierarchy children. -/
theorem astToHierarchy_skips_sentinel_witness :
    sampleWithEof.countP
        (fun c => c.kind = SyntaxKind.EndOfFileToken) = 1 ∧
      (((astToHierarchy
          (.mk SyntaxKind.SourceFile "" sampleWithEof)).children).getD
            []).length = sampleWithEof.length - 1 :=
  ⟨by decide,
   (astToHierarchy_skips_sentinel SyntaxKind.SourceFile ""
      sampleWithEof).2 (by decide)⟩

/-! ### Labeling (claims C4 and C6) -/

lemma nodeNameOf_eq (k : SyntaxKind) (t : String) (cs : List TSNode) :
    nodeNameOf (.mk k t cs) =
      if k = SyntaxKind.Identifier then "Identifier: " ++ t
      else if k = SyntaxKind.NumericLiteral then "NumericLiteral: " ++ t
      else if k = SyntaxKind.StringLiteral then
        "StringLiteral: \"" ++ t ++ "\""
      else SyntaxKind.name k := by
  simp only [nodeNameOf, isIdentifier, isNumericLiteral, isStringLiteral,
    isToken, TSNode.kind, TSNode.text]
  by_cases h1 : k = SyntaxKind.Identifier
  · simp [h1]
  · by_cases h2 : k = SyntaxKind.NumericLiteral
    · simp [h1, h2]
    · by_cases h3 : k = SyntaxKind.StringLiteral
      · simp [h1, h2, h3]
      · simp [h1, h2, h3, ite_self]

/-- C4: the label follows the first-match-wins priority: identifier text,
then numeric-literal text, then quoted string-literal text, and every other
node — token or compound, recognized or not — gets exactly the kind's
canonical name with no text suffix. -/
theorem astToHierarchy_label_priority (k : SyntaxKind) (t : String)
    (cs : List TSNode) :
    (astToHierarchy (.mk k t cs)).name =
      if k = SyntaxKind.Identifier then "Identifier: " ++ t
      else if k = SyntaxKind.NumericLiteral then "NumericLiteral: " ++ t
      else if k = SyntaxKind.StringLiteral then
        "StringLiteral: \"" ++ t ++ "\""
      else SyntaxKind.name k :=
  nodeNameOf_eq k t cs

/-- C6: the transformation is a total function (it is defined for every
discriminant value), and any kind not matched by the identifier or literal
predicates falls through to the kind's canonical name; there is no failure
branch. -/
theorem astToHierarchy_total_fallback (k : SyntaxKind) (t : String)
    (cs : List TSNode)
    (h : k ≠ SyntaxKind.Identifier ∧ k ≠ SyntaxKind.NumericLiteral ∧
      k ≠ SyntaxKind.StringLiteral) :
    (astToHierarchy (.mk k t cs)).name = SyntaxKind.name k := by
  show nodeNameOf (.mk k t cs) = _
  rw [nodeNameOf_eq, if_neg h.1, if_neg h.2.1, if_neg h.2.2]

/-- Witness for C6 at a discriminant value far outside every recognized
kind. -/
theorem astToHierarchy_total_fallback_witness :
    ((9999 : SyntaxKind) ≠ SyntaxKind.Identifier ∧
        (9999 : SyntaxKind) ≠ SyntaxKind.NumericLiteral ∧
        (9999 : SyntaxKind) ≠ SyntaxKind.StringLiteral) ∧
      (astToHierarchy (.mk 9999 "" [])).name = SyntaxKind.name 9999 :=
  ⟨by decide, astToHierarchy_total_fallback 9999 "" [] (by decide)⟩

/-! ### Leaf omission (claim C5) -/

/-- C5: a produced hierarchy node has no `children` field at all exactly when
the filtered child list is empty, and whenever the field is present its list
is non-empty — leaf versus internal status is decided by field presence
alone. -/
theorem astToHierarchy_leaf_omission (k : SyntaxKind) (t : String)
    (cs : List TSNode) :
    ((astToHierarchy (.mk k t cs)).children = none ↔
        cs.filter (fun c => c.kind ≠ SyntaxKind.EndOfFileToken) = []) ∧
      ∀ l, (astToHierarchy (.mk k t cs)).children = some l → l ≠ [] := by
  have hc := astChildren_eq_filter_map cs
  rw [astToHierarchy_mk]
  simp only [HierarchyNode.children]
  constructor
  · constructor
    · intro h
      by_contra hne
      have hpos : (astChildren cs).length > 0 := by
        rw [hc, List.length_map]
        exact List.length_pos.mpr hne
      rw [if_pos hpos] at h
      cases h
    · intro h
      have hz : (astChildren cs).length = 0 := by
        rw [hc, h]
        rfl
      rw [if_neg (by omega)]
  · intro l hl
    split at hl
    · next hpos =>
      cases hl
      exact List.length_pos.mp hpos
    · cases hl

/-- Witness for C5: a node with one non-sentinel child carries a present,
non-empty `children` field. -/
theorem astToHierarchy_leaf_omission_witness :
    [astToHierarchy (.mk SyntaxKind.Identifier "x" [])]
      ≠ ([] : List HierarchyNode) :=
  (astToHierarchy_leaf_omission SyntaxKind.BinaryExpression ""
      [.mk SyntaxKind.Identifier "x" []]).2
    [astToHierarchy (.mk SyntaxKind.Identifier "x" [])] rfl

/-! ### Uniform weights (claim C7) -/

mutual

theorem allValuesOne_astToHierarchy :
    ∀ (n : TSNode), allValuesOne (astToHierarchy n) = true
  | .mk k t cs => by
    rw [astToHierarchy_mk]
    split
    · show ((some 1 == some 1) && allValuesOneList (astChildren cs)) = true
      rw [allValuesOneList_astChildren cs]
      rfl
    · rfl

theorem allValuesOneList_astChildren :
    ∀ (cs : List TSNode), allValuesOneList (astChildren cs) = true
  | [] => rfl
  | c :: cs' => by
    show allValuesOneList (if c.kind = SyntaxKind.EndOfFileToken
        then astChildren cs' else astToHierarchy c :: astChildren cs') = true
    split
    · exact allValuesOneList_astChildren cs'
    · show (allValuesOne (astToHierarchy c)
          && allValuesOneList (astChildren cs')) = true
      rw [allValuesOne_astToHierarchy c, allValuesOneList_astChildren cs']
      rfl

end

lemma allValuesOneList_map (l : List TSNode) :
    allValuesOneList (l.map astToHierarchy) = true := by
  induction l with
  | nil => rfl
  | cons c l ih =>
    show (allValuesOne (astToHierarchy c)
        && allValuesOneList (l.map astToHierarchy)) = true
    rw [allValuesOne_astToHierarchy c, ih]
    rfl

mutual

theorem sumWeight_eq_count :
    ∀ (h : HierarchyNode), allValuesOne h = true →
      sumWeight h = h.nodeCount
  | .mk s none v k, hv => by
    have h0 : (v == some 1) = true := hv
    have hv1 : v = some 1 := by simpa using h0
    show jsWeight v = 1
    rw [hv1]
    rfl
  | .mk s (some cs) v k, hv => by
    have h' : ((v == some 1) && allValuesOneList cs) = true := hv
    rw [Bool.and_eq_true] at h'
    have hv1 : v = some 1 := by simpa using h'.1
    show jsWeight v + sumWeightList cs = 1 + hNodeCountList cs
    rw [hv1, sumWeightList_eq_count cs h'.2]
    rfl

theorem sumWeightList_eq_count :
    ∀ (hs : List HierarchyNode), allValuesOneList hs = true →
      sumWeightList hs = hNodeCountList hs
  | [], _ => rfl
  | h :: hs', hv => by
    have h' : (allValuesOne h && allValuesOneList hs') = true := hv
    rw [Bool.and_eq_true] at h'
    show sumWeight h + sumWeightList hs' = h.nodeCount + hNodeCountList hs'
    rw [sumWeight_eq_count h h'.1, sumWeightList_eq_count hs' h'.2]

end

/-- C7: every node of a hierarchy produced by `astToHierarchy` or
`astRootToHierarchy` carries `value = 1`, so the subtree weight computed by
the pre-layout `root.sum(d => d.value || 1)` step equals the node count at
the root. -/
theorem hierarchy_uniform_values (n : TSNode) (sf : TSSourceFile) :
    (allValuesOne (astToHierarchy n) = true ∧
        sumWeight (astToHierarchy n) = (astToHierarchy n).nodeCount) ∧
      (allValuesOne (astRootToHierarchy sf) = true ∧
        sumWeight (astRootToHierarchy sf)
          = (astRootToHierarchy sf).nodeCount) := by
  have hroot : allValuesOne (astRootToHierarchy sf) = true := by
    unfold astRootToHierarchy
    split
    · exact allValuesOne_astToHierarchy _
    · show ((some 1 == some 1)
          && allValuesOneList (sf.statements.map astToHierarchy)) = true
      rw [allValuesOneList_map]
      rfl
  exact ⟨⟨allValuesOne_astToHierarchy n,
      sumWeight_eq_count _ (allValuesOne_astToHierarchy n)⟩,
    hroot, sumWeight_eq_count _ hroot⟩

/-! ### The sentinel as the argument itself (claim C10) -/

/-- C10: the sentinel filter applies only to enumerated children, never to
the argument node: `astToHierarchy` applied to the end-of-input token itself
still returns a node labeled with the sentinel kind's canonical name, with
value 1 and no children. -/
theorem astToHierarchy_on_sentinel (t : String) :
    astToHierarchy (.mk SyntaxKind.EndOfFileToken t []) =
      .mk (SyntaxKind.name SyntaxKind.EndOfFileToken) none (some 1)
        SyntaxKind.EndOfFileToken := rfl

/-! ### Label truncation in the layout step (claim C8)

Both `BlobVisualization.tsx` and `RingsVisualization.tsx` label a circle
only when its packed radius `r` exceeds 30, use
`getFontSize(depth) = Math.max(40 - depth * 3, 24)`, an arc radius `r - 5`,
a character budget
`maxChars = Math.floor((arcRadius * Math.PI) / (fontSize * 0.6))`, and
render `label.length > maxChars ? label.slice(0, maxChars - 2) + '...'
: label`. -/

/-- `getFontSize(depth)` from both visualization components:
`Math.max(40 - depth * 3, 24)` (an exact rational). -/
def getFontSize (depth : Nat) : ℚ := max (40 - (depth : ℚ) * 3) 24

/-- JavaScript `s.slice(0, e)`: a negative end index counts from the end of
the string and is clamped at zero. -/
def jsSliceTo (s : String) (e : ℤ) : String :=
  if e < 0 then s.take ((s.length : ℤ) + e).toNat else s.take e.toNat

/-- The rendered label of both visualization components:
`label.length > maxChars ? label.slice(0, maxChars - 2) + '...' : label`. -/
def truncatedLabel (label : String) (maxChars : ℤ) : String :=
  if (label.length : ℤ) > maxChars then
    jsSliceTo label (maxChars - 2) ++ "..."
  else label

lemma take_append_ellipsis_length (s : String) (n : Nat) :
    (s.take n ++ "...").length = min n s.length + 3 := by
  rw [String.take_eq]
  show (String.mk (s.1.take n) ++ String.mk ['.', '.', '.']).length = _
  show ((s.1.take n) ++ ['.', '.', '.']).length = _
  rw [List.length_append, List.length_take]
  rfl

/-- C8: whenever the packed radius exceeds the visibility threshold 30, the
computed character budget `maxChars = ⌊(r - 5)·π / (fontSize·0.6)⌋` is at
least 3; a label longer than the budget is rendered as its first
`maxChars - 2` characters followed by the 3-character ellipsis marker, with
total length at most `maxChars + 1`; a label within the budget is rendered
unchanged. -/
theorem truncation_budget (r : ℝ) (depth : Nat) (label : String)
    (maxChars : ℤ) (hr : 30 < r)
    (hm : maxChars
      = ⌊((r - 5) * Real.pi) / ((getFontSize depth : ℝ) * 0.6)⌋) :
    3 ≤ maxChars ∧
      (maxChars < (label.length : ℤ) →
        truncatedLabel label maxChars
            = label.take (maxChars.toNat - 2) ++ "..." ∧
          ((truncatedLabel label maxChars).length : ℤ) ≤ maxChars + 1) ∧
      ((label.length : ℤ) ≤ maxChars →
        truncatedLabel label maxChars = label) := by
  have hf1 : (24 : ℚ) ≤ getFontSize depth := le_max_right _ _
  have hf2 : getFontSize depth ≤ 40 := by
    apply max_le
    · have : (0 : ℚ) ≤ (depth : ℚ) * 3 := by positivity
      linarith
    · norm_num
  have hf1' : (24 : ℝ) ≤ (getFontSize depth : ℝ) := by exact_mod_cast hf1
  have hf2' : ((getFontSize depth : ℝ)) ≤ 40 := by exact_mod_cast hf2
  have hfpos : (0 : ℝ) < (getFontSize depth : ℝ) * 0.6 := by nlinarith
  have h3 : 3 ≤ maxChars := by
    rw [hm, Int.le_floor]
    rw [show ((3 : ℤ) : ℝ) = 3 by norm_num, le_div_iff₀ hfpos]
    have hpi : (3 : ℝ) < Real.pi := Real.pi_gt_three
    nlinarith [mul_pos (show (0 : ℝ) < r - 30 by linarith)
      (show (0 : ℝ) < Real.pi - 3 by linarith)]
  refine ⟨h3, ?_, ?_⟩
  · intro hlen
    have hnn : ¬(maxChars - 2 < 0) := by omega
    have htr : truncatedLabel label maxChars
        = label.take (maxChars - 2).toNat ++ "..." := by
      rw [truncatedLabel, if_pos (by exact_mod_cast hlen), jsSliceTo,
        if_neg hnn]
    have hto : (maxChars - 2).toNat = maxChars.toNat - 2 := by omega
    refine ⟨by rw [htr, hto], ?_⟩
    rw [htr, take_append_ellipsis_length]
    have hmin : min (maxChars - 2).toNat label.length
        = (maxChars - 2).toNat := by
      apply min_eq_left
      omega
    rw [hmin]
    omega
  · intro hlen
    rw [truncatedLabel, if_neg (by omega)]

/-- Witness for C8: at radius 40 and depth 0 the budget is
`⌊35·π / 24⌋ = 4`, and a 10-character label is rendered as its first two
characters plus the ellipsis. -/
theorem truncation_budget_witness :
    truncatedLabel "abcdefghij"
        ⌊(((40 : ℝ) - 5) * Real.pi) / ((getFontSize 0 : ℝ) * 0.6)⌋
      = "ab..." := by
  have hmc : ⌊(((40 : ℝ) - 5) * Real.pi) / ((getFontSize 0 : ℝ) * 0.6)⌋
      = 4 := by
    have hf : ((getFontSize 0 : ℚ) : ℝ) = 40 := by
      norm_num [getFontSize]
    rw [hf]
    have h1 : (3.141592 : ℝ) < Real.pi := Real.pi_gt_d6
    have h2 : Real.pi < 3.15 := Real.pi_lt_d2
    rw [Int.floor_eq_iff]
    constructor
    · rw [show (((4 : ℤ) : ℝ)) = 4 by norm_num, le_div_iff₀ (by norm_num)]
      nlinarith
    · rw [show (((4 : ℤ) : ℝ) + 1) = 5 by norm_num, div_lt_iff₀ (by norm_num)]
      nlinarith
  have happ := truncation_budget 40 0 "abcdefghij"
    ⌊(((40 : ℝ) - 5) * Real.pi) / ((getFontSize 0 : ℝ) * 0.6)⌋
    (by norm_num) rfl
  have h2 := (happ.2.1 (by rw [hmc]; decide)).1
  rw [hmc] at h2 ⊢
  rw [h2]
  decide

end CompileTime
